import Mathlib

/-!
Verification of the NOW game-content modules: shallow embedding of the
text-command parsing core (CmdPose.parse), the spoof renderer's numeric
parameter handling (CmdSpoof.func), the say/ooc template escaping
(CmdSay.func, CmdOoc.func), the inlinefunc configuration, and the
surface / consumable typeclass behaviours (Object.surface_put,
Object.surface_off, Consumable.consume).

Strings are modelled as `List Char`; Python whitespace handling (the
ASCII part of `str.split()` / `str.strip()`) is modelled explicitly.
-/

/-- Python's default whitespace set (ASCII part), as used by
`str.split()` and `str.strip()` with no arguments. -/
def pyIsSpace (c : Char) : Bool :=
  c == ' ' || c == '\t' || c == '\n' || c == '\r' || c.toNat == 11 || c.toNat == 12

/-- Python `s.split()`: split on runs of whitespace, discarding empty
tokens (so leading/trailing whitespace produces no tokens). -/
def pySplitWs : List Char → List (List Char)
  | [] => []
  | [c] => if pyIsSpace c then [] else [[c]]
  | c :: d :: rest =>
    if pyIsSpace c then pySplitWs (d :: rest)
    else if pyIsSpace d then [c] :: pySplitWs rest
    else match pySplitWs (d :: rest) with
      | t :: ts => (c :: t) :: ts
      | [] => [[c]]

/-- Python `s.strip()`: remove leading and trailing whitespace. -/
def pyStrip (l : List Char) : List Char :=
  ((l.dropWhile pyIsSpace).reverse.dropWhile pyIsSpace).reverse

/-- Python `s.split('::', 1)` when `'::' in s`: returns the text before
and after the first occurrence of `::`; `none` when `::` does not occur
(i.e. when `len(s.split('::')) <= 1` in the source's guard). -/
def splitCC : List Char → Option (List Char × List Char)
  | ':' :: ':' :: rest => some ([], rest)
  | c :: rest => (splitCC rest).map (fun p => (c :: p.1, p.2))
  | [] => none

/-- The `non_space_chars` list of CmdPose.parse (command.py line 632):
glyphs that attach directly to the actor's name without a space. -/
def nonSpaceChars : List Char :=
  ['®', '©', '°', '·', '~', '@', '-', '\'', '’', ',', ';', ':', '.', '?', '!', '…']

/-- The glyph-spacing step of CmdPose.parse (command.py lines 649-650):
`if args and not args[0] in non_space_chars: args = " %s" % args.strip()`. -/
def spaceRuleL (l : List Char) : List Char :=
  match l with
  | [] => []
  | c :: _ => if c ∈ nonSpaceChars then l else ' ' :: pyStrip l

/-- Result of CmdPose.parse (command.py lines 628-651).
`verb` is `self.verb`; `searchQuery` is the `noun` string passed to the
object-search collaborator at line 648 (`self.obj = caller.search(noun,
location=[caller, caller.location])`), `none` when that call is not made
(`self.obj` then stays `None`); `args` is the final `self.args`. -/
structure PoseR where
  verb : Option (List Char)
  searchQuery : Option (List Char)
  args : List Char
deriving DecidableEq, Repr

/-- CmdPose.parse, command.py lines 637-651. `implicitTry` is true when
`self.cmdstring == 'try'`, in which case `args += '::'` first. -/
def resolvePoseCore (implicitTry : Bool) (args0 : List Char) : PoseR :=
  let a := if implicitTry then args0 ++ [':', ':'] else args0
  match splitCC a with
  | none => ⟨none, none, spaceRuleL a⟩
  | some (verbnoun, pose) =>
    let toks := pySplitWs verbnoun
    if 0 < toks.length ∧ toks.length ≤ 2 then
      if toks.length = 2 then
        ⟨toks[0]?, toks[1]?, spaceRuleL pose⟩
      else
        ⟨some (pyStrip verbnoun), some ['m', 'e'], spaceRuleL pose⟩
    else ⟨none, none, spaceRuleL a⟩

/-- String-level wrapper for CmdPose.parse, in the shape of the spec's
`resolve_pose(args, implicit_try)` contract: returns
(verb, search query / target fragment, pose text). -/
def resolve_pose (args : String) (implicitTry : Bool) :
    Option String × Option String × String :=
  let r := resolvePoseCore implicitTry args.data
  (r.verb.map String.mk, r.searchQuery.map String.mk, String.mk r.args)

/-! ### CmdSpoof numeric parameter handling (say.py lines 164-192) -/

/-- A Python 2 value appearing in the `max`/`min` comparison at say.py
line 185: either the non-empty digit string left by
`re.sub("[^0123456789]", '', s)`, or the integer `0` fallback from
`... or 0`. -/
inductive PyV where
  | int (n : Nat)
  | str (s : List Char)
deriving DecidableEq, Repr

/-- Sanitization `re.sub("[^0123456789]", '', s) or 0`: strip
non-digits, falling back to the integer 0 when nothing remains. -/
def sanitizeOrZero (s : List Char) : PyV :=
  let d := s.filter Char.isDigit
  if d = [] then .int 0 else .str d

/-- Lexicographic (code-point) comparison of Python strings. -/
def strLt : List Char → List Char → Bool
  | [], [] => false
  | [], _ :: _ => true
  | _ :: _, [] => false
  | a :: as, b :: bs =>
    if a.toNat < b.toNat then true
    else if b.toNat < a.toNat then false
    else strLt as bs

/-- Python 2 `<` on the mixed int/str values at say.py line 185: any
int compares below any str (CPython 2 orders mismatched types by type
name, and "int" < "str"); two strs compare lexicographically. -/
def pyLt : PyV → PyV → Bool
  | .int m, .int n => m < n
  | .int _, .str _ => true
  | .str _, .int _ => false
  | .str x, .str y => strLt x y

/-- Python 2 `max(a, b)`: keeps `a` unless `b` is strictly greater. -/
def pyMax (a b : PyV) : PyV := if pyLt a b then b else a

/-- Python 2 `min(a, b)`: keeps `a` unless `b` is strictly smaller. -/
def pyMin (a b : PyV) : PyV := if pyLt b a then b else a

/-- Conversion `int(v)` applied to the sanitized values (digit-only
strings or the int 0). -/
def pyToInt : PyV → Nat
  | .int n => n
  | .str s => s.foldl (fun n c => 10 * n + (c.toNat - 48)) 0

/-- The `(outside, inside)` width/inset pair computed by CmdSpoof.func
for the /right, /center and /news switches (say.py lines 175-189),
as a function of `self.rhs` (`none` = no `=` sign on the command line). -/
def spoofJustifyParams (rhs : Option String) : Nat × Nat :=
  match rhs with
  | none => (72, Nat.min 72 20)
  | some r =>
    let params := if r = "" then [] else pySplitWs r.data
    if params.length > 1 then
      let p0 := (params[0]?).getD []
      let p1 := (params[1]?).getD []
      let outside := sanitizeOrZero p0
      let inside := sanitizeOrZero p1
      (pyToInt (pyMax outside inside), pyToInt (pyMin outside inside))
    else (72, 20)

/-- The indent computed by CmdSpoof.func for the /indent switch
(say.py lines 165-169): defaults to 20, and with a (truthy) `self.rhs`
uses `int(re.sub("[^0123456789]", '', self.rhs) or 20)`. -/
def spoofIndentParam (rhs : Option String) : Nat :=
  match rhs with
  | none => 20
  | some r =>
    if r = "" then 20
    else
      let d := r.data.filter Char.isDigit
      if d = [] then 20 else pyToInt (.str d)

/-! ### Template escaping in say/ooc/spoof (say.py lines 79-92, 160-163) -/

/-- Double every character satisfying `p` (an escaping pass). -/
def escDouble (p : Char → Bool) : List Char → List Char
  | [] => []
  | c :: r => if p c then c :: c :: escDouble p r else c :: escDouble p r

/-- Modelled from the spec: `escape_braces` (imported from
world.helpers, which is not part of this repository) — "every
occurrence of the markup-introducer character in a binding value is
doubled before substitution"; for the `str.format`-style mapping layer
that processes these texts the introducer characters are the braces. -/
def escape_braces (l : List Char) : List Char :=
  escDouble (fun c => c == '{' || c == '}') l

/-- The pipe-escaping pass of CmdSpoof.func (say.py line 163):
`args.replace('|', '||')`. -/
def escPipe (l : List Char) : List Char :=
  escDouble (fun c => c == '|') l

/-- Number of occurrences of `g` that function as live markup when the
text is scanned left to right: a doubled `g g` is consumed as an
escaped literal, while a lone `g` introduces a directive (consuming the
following character as its code). -/
def liveCount (g : Char) : List Char → Nat
  | [] => 0
  | [c] => if c == g then 1 else 0
  | c :: d :: rest =>
    if c == g then
      (if d == g then liveCount g rest else 1 + liveCount g rest)
    else liveCount g (d :: rest)

/-- The room-broadcast text built by CmdSay.func in the plain (no /ooc)
branch, say.py lines 86-88:
`'{char} %s, |n"%s%s|n"' % (escape_braces(verb), escape_braces(prepend),
escape_braces(speech))`. -/
def renderSayPlain (verb prepend speech : List Char) : List Char :=
  "{char} ".data ++ escape_braces verb ++ ", |n\"".data ++
    escape_braces prepend ++ escape_braces speech ++ "|n\"".data

/-- The room-broadcast text built by CmdSay.func in the /ooc branch,
say.py line 80: `'[OOC] {char} says, |n"|w%s|n"' % escape_braces(speech)`. -/
def renderSayOoc (speech : List Char) : List Char :=
  "[OOC] {char} says, |n\"|w".data ++ escape_braces speech ++ "|n\"".data

/-! ### Inlinefunc configuration (inlinefuncs.py, settings.py) -/

/-- settings.py line 39: `INLINEFUNC_ENABLED = False  # Needs testing
before use.` -/
def INLINEFUNC_ENABLED : Bool := false

/-- inlinefuncs.py lines 56-63: the `usage` inline function; `rand` is
the value drawn from the process-wide random number generator by
`random()`. -/
def usage (rand : ℚ) : String :=
  if 1 / 2 < rand then "busy" else "quiet"

/-- Replace every occurrence of the `{usage(){/usage` inline-call marker
by `rep` (the framework's inlinefunc substitution, specialized to the
`usage` function; only performed when inlinefuncs are enabled). -/
def substUsage (rep : List Char) : List Char → List Char
  | [] => []
  | c :: rest =>
    if "\x7busage()\x7b/usage".data.isPrefixOf (c :: rest) then
      rep ++ substUsage rep ((c :: rest).drop 15)
    else c :: substUsage rep rest
termination_by l => l.length
decreasing_by
  · simp only [List.length_drop, List.length_cons]
    omega
  · simp

/-- Server-side outgoing-text processing as configured by this
repository: inlinefunc substitution runs only when INLINEFUNC_ENABLED
is set (settings.py line 39). `rand` is the state of the external
random number generator consumed by the `usage` inlinefunc. -/
def renderOutgoing (rand : ℚ) (text : List Char) : List Char :=
  if INLINEFUNC_ENABLED then substUsage (usage rand).data text else text

/-! ### Surface relationships and consumables (objects.py) -/

/-- The `surface` attribute's dictionary, as an association list from
caller (object id) to the connection string; Python dicts have unique
keys. -/
abbrev Surface := List (Nat × String)

/-- The attribute state touched by Object.surface_put / surface_off:
the object's `surface` attribute (`none` = attribute absent), the
object's `locked` attribute (`true` = present, as only `True` is ever
stored), and the set of callers whose own `locked` attribute is set. -/
structure SurfSt where
  surface : Option Surface
  objLocked : Bool
  callersLocked : List Nat
deriving DecidableEq, Repr

/-- Membership test `caller in surface` for the dictionary. -/
def surfHas (s : Surface) (c : Nat) : Bool := s.any (fun p => p.1 == c)

/-- Object.surface_put (objects.py lines 255-267): creates the
`surface` dict if absent, refuses (returning False) when the caller is
already on the surface, otherwise records the caller's connection and
sets `locked` on both the object and the caller, returning True. -/
def surface_put (c : Nat) (conn : String) (st : SurfSt) : SurfSt × Bool :=
  let surf := st.surface.getD []
  if surfHas surf c then ({ st with surface := some surf }, false)
  else
    ({ surface := some ((c, conn) :: surf),
       objLocked := true,
       callersLocked :=
         if c ∈ st.callersLocked then st.callersLocked else c :: st.callersLocked },
     true)

/-- Object.surface_off (objects.py lines 269-281): reads the `surface`
attribute (raising TypeError on `caller in None` when it is absent);
when the caller is on the surface it is removed, the object's `locked`
attribute is removed exactly when the dict became empty
(`len(surface) < 1`), the caller's `locked` attribute is removed, and
True is returned; otherwise False. -/
def surface_off (c : Nat) (st : SurfSt) : Except String (SurfSt × Bool) :=
  match st.surface with
  | none => .error "TypeError: argument of type NoneType is not iterable"
  | some surf =>
    if surfHas surf c then
      let surf2 := surf.filter (fun p => p.1 != c)
      .ok ({ surface := some surf2,
             objLocked := if surf2.length < 1 then false else st.objLocked,
             callersLocked := st.callersLocked.filter (fun x => x != c) },
           true)
    else .ok (st, false)

/-- One call in a sequence against a fixed object: a surface_put by
caller `c` with connection text `conn`, or a surface_off by caller `c`. -/
inductive SurfOp where
  | put (c : Nat) (conn : String)
  | off (c : Nat)

/-- Run a sequence of surface_put / surface_off calls on the object.
A raised TypeError aborts its call before any attribute was written,
leaving the state unchanged. -/
def runSurfOps (st : SurfSt) : List SurfOp → SurfSt
  | [] => st
  | op :: rest =>
    let st2 :=
      match op with
      | .put c conn => (surface_put c conn st).1
      | .off c =>
        match surface_off c st with
        | .ok r => r.1
        | .error _ => st
    runSurfOps st2 rest

/-- The object's surface dict exists and is non-empty. -/
def surfaceNonempty (st : SurfSt) : Bool :=
  match st.surface with
  | some (_ :: _) => true
  | _ => false

/-- Consumable.consume (objects.py lines 379-387) acting on the
`health` attribute (`none` = attribute absent): returns the pair
(new attribute state, Python return value). -/
def consume (health : Option Int) : Option Int × Option Int :=
  match health with
  | none => (none, none)
  | some h =>
    let h1 := h - 1
    let h2 := if h1 < 1 then 0 else h1
    (some h2, some h2)

/-! ### Helper lemmas on tokenization and stripping -/

lemma pySplitWs_cons_space {c : Char} (l : List Char) (h : pyIsSpace c = true) :
    pySplitWs (c :: l) = pySplitWs l := by
  cases l with
  | nil => simp [pySplitWs, h]
  | cons d rest => simp [pySplitWs, h]

lemma pySplitWs_cons_nonspace (l : List Char) :
    ∀ c, pyIsSpace c = false →
      pySplitWs (c :: l) =
        (c :: l.takeWhile (fun x => !pyIsSpace x)) ::
          pySplitWs (l.dropWhile (fun x => !pyIsSpace x)) := by
  induction l with
  | nil => intro c h; simp [pySplitWs, h]
  | cons d rest ih =>
    intro c h
    by_cases hd : pyIsSpace d = true
    · have h1 : pySplitWs (c :: d :: rest) = [c] :: pySplitWs rest := by
        simp [pySplitWs, h, hd]
      rw [h1]
      simp [List.takeWhile_cons, List.dropWhile_cons, hd, pySplitWs_cons_space rest hd]
    · have hd' : pyIsSpace d = false := by simpa using hd
      have h2 : pySplitWs (c :: d :: rest) =
          match pySplitWs (d :: rest) with
          | t :: ts => (c :: t) :: ts
          | [] => [[c]] := by
        simp [pySplitWs, h, hd']
      rw [h2, ih d hd']
      simp [List.takeWhile_cons, List.dropWhile_cons, hd']

lemma pySplitWs_all_space (l : List Char) (h : pySplitWs l = []) :
    ∀ c ∈ l, pyIsSpace c = true := by
  induction l with
  | nil => simp
  | cons c rest ih =>
    by_cases hc : pyIsSpace c = true
    · rw [pySplitWs_cons_space rest hc] at h
      intro x hx
      rcases List.mem_cons.1 hx with rfl | hx
      · exact hc
      · exact ih h x hx
    · have hc' : pyIsSpace c = false := by simpa using hc
      rw [pySplitWs_cons_nonspace rest c hc'] at h
      simp at h

lemma dropWhile_append_allT {p : Char → Bool} {A : List Char} (B : List Char)
    (h : ∀ x ∈ A, p x = true) : (A ++ B).dropWhile p = B.dropWhile p := by
  induction A with
  | nil => simp
  | cons a as ih =>
    simp only [List.cons_append, List.dropWhile_cons_of_pos (h a (by simp))]
    exact ih (fun x hx => h x (by simp [hx]))

lemma dropWhile_eq_self_allF {p : Char → Bool} {X : List Char}
    (h : ∀ x ∈ X, p x = false) : X.dropWhile p = X := by
  cases X with
  | nil => simp
  | cons x xs =>
    apply List.dropWhile_cons_of_neg
    simp [h x (by simp)]

lemma pyStrip_single_token (l t : List Char) (h : pySplitWs l = [t]) :
    pyStrip l = t := by
  induction l with
  | nil => simp [pySplitWs] at h
  | cons c rest ih =>
    by_cases hc : pyIsSpace c = true
    · rw [pySplitWs_cons_space rest hc] at h
      have := ih h
      unfold pyStrip at this ⊢
      rw [List.dropWhile_cons_of_pos hc]
      exact this
    · have hc' : pyIsSpace c = false := by simpa using hc
      rw [pySplitWs_cons_nonspace rest c hc'] at h
      have ht : t = c :: rest.takeWhile (fun x => !pyIsSpace x) := by
        exact (List.cons_eq_cons.1 h).1.symm
      have hW : pySplitWs (rest.dropWhile (fun x => !pyIsSpace x)) = [] := by
        exact (List.cons_eq_cons.1 h).2
      have hWsp := pySplitWs_all_space _ hW
      have hsplit : c :: rest = t ++ rest.dropWhile (fun x => !pyIsSpace x) := by
        rw [ht]
        simp [List.takeWhile_append_dropWhile]
      have htF : ∀ x ∈ t, pyIsSpace x = false := by
        intro x hx
        rw [ht] at hx
        rcases List.mem_cons.1 hx with rfl | hx
        · exact hc'
        · have := List.mem_takeWhile_imp hx
          simpa using this
      unfold pyStrip
      rw [List.dropWhile_cons_of_neg (by simp [hc']), hsplit]
      rw [List.reverse_append]
      rw [dropWhile_append_allT _ (fun x hx => hWsp x (List.mem_reverse.1 hx))]
      rw [dropWhile_eq_self_allF (fun x hx => htF x (List.mem_reverse.1 hx))]
      simp [ht]

/-! ### Helper lemmas on escaping and the live-markup scanner -/

lemma liveCount_cons_ne {g c : Char} (h : (c == g) = false) (l : List Char) :
    liveCount g (c :: l) = liveCount g l := by
  cases l with
  | nil => simp [liveCount, h]
  | cons d rest => simp [liveCount, h]

lemma liveCount_live_cons {g d : Char} (hd : (d == g) = false) (l : List Char) :
    liveCount g (g :: d :: l) = 1 + liveCount g l := by
  simp [liveCount, hd]

lemma liveCount_escDouble_append {p : Char → Bool} {g : Char} (hg : p g = true)
    (v B : List Char) : liveCount g (escDouble p v ++ B) = liveCount g B := by
  induction v with
  | nil => simp [escDouble]
  | cons c r ih =>
    by_cases hc : p c = true
    · simp only [escDouble, if_pos hc, List.cons_append]
      by_cases hcg : c = g
      · rw [hcg, show liveCount g (g :: g :: (escDouble p r ++ B)) =
              liveCount g (escDouble p r ++ B) from by simp [liveCount]]
        exact ih
      · have h1 : (c == g) = false := by simp [hcg]
        rw [liveCount_cons_ne h1, liveCount_cons_ne h1]
        exact ih
    · have hc' : p c = false := by simpa using hc
      simp only [escDouble, hc', Bool.false_eq_true, if_false, List.cons_append]
      have h1 : (c == g) = false := by
        by_cases hcg : c = g
        · rw [hcg, hg] at hc'
          simp at hc'
        · simp [hcg]
      rw [liveCount_cons_ne h1]
      exact ih

lemma liveCount_append_not_mem {g : Char} (seg B : List Char)
    (h : ∀ c ∈ seg, (c == g) = false) :
    liveCount g (seg ++ B) = liveCount g B := by
  induction seg with
  | nil => simp
  | cons c rest ih =>
    rw [List.cons_append, liveCount_cons_ne (h c (by simp))]
    exact ih (fun x hx => h x (by simp [hx]))

lemma liveOpen_sayTplHead (B : List Char) :
    liveCount '{' ("{char} ".data ++ B) = 1 + liveCount '{' B := by
  show liveCount '{' ('{' :: 'c' :: 'h' :: 'a' :: 'r' :: '}' :: ' ' :: B) =
    1 + liveCount '{' B
  rw [liveCount_live_cons (by decide), liveCount_cons_ne (by decide),
    liveCount_cons_ne (by decide), liveCount_cons_ne (by decide),
    liveCount_cons_ne (by decide), liveCount_cons_ne (by decide)]

lemma liveOpen_oocTplHead (B : List Char) :
    liveCount '{' ("[OOC] {char} says, |n\"|w".data ++ B) = 1 + liveCount '{' B := by
  show liveCount '{'
      ("[OOC] ".data ++ ("{char} ".data ++ ("says, |n\"|w".data ++ B))) =
    1 + liveCount '{' B
  rw [liveCount_append_not_mem ("[OOC] ".data) _ (by decide), liveOpen_sayTplHead,
    liveCount_append_not_mem ("says, |n\"|w".data) _ (by decide)]

/-! ### Helper lemmas on the surface invariant -/

lemma surface_put_inv (c : Nat) (conn : String) (st : SurfSt)
    (h : st.objLocked = true ↔ surfaceNonempty st = true) :
    ((surface_put c conn st).1.objLocked = true ↔
      surfaceNonempty (surface_put c conn st).1 = true) := by
  unfold surface_put
  by_cases hc : surfHas (st.surface.getD []) c = true
  · simp only [if_pos hc]
    cases hs : st.surface with
    | none =>
      rw [hs] at hc
      simp [surfHas] at hc
    | some s =>
      rw [hs] at hc
      cases s with
      | nil => simp [surfHas] at hc
      | cons a as =>
        simp only [Option.getD_some]
        simp only [surfaceNonempty, hs] at h
        simp only [surfaceNonempty]
        simpa using h
  · simp only [if_neg hc]
    simp [surfaceNonempty]

lemma surface_off_inv (c : Nat) (st : SurfSt)
    (h : st.objLocked = true ↔ surfaceNonempty st = true) :
    ((match surface_off c st with
      | .ok r => r.1
      | .error _ => st).objLocked = true ↔
      surfaceNonempty (match surface_off c st with
        | .ok r => r.1
        | .error _ => st) = true) := by
  unfold surface_off
  cases hs : st.surface with
  | none => simpa using h
  | some surf =>
    by_cases hc : surfHas surf c = true
    · simp only [if_pos hc]
      by_cases h2 : (surf.filter (fun p => p.1 != c)).length < 1
      · have hnil : surf.filter (fun p => p.1 != c) = [] :=
          List.length_eq_zero.1 (by omega)
        simp [h2, hnil, surfaceNonempty]
      · have hne : surf.filter (fun p => p.1 != c) ≠ [] := by
          intro hx
          rw [hx] at h2
          simp at h2
        have hsurfne : surf ≠ [] := by
          intro hx
          rw [hx] at hc
          simp [surfHas] at hc
        obtain ⟨a, as, rfl⟩ := List.exists_cons_of_ne_nil hsurfne
        have hlock : st.objLocked = true := by
          rw [h]
          simp [surfaceNonempty, hs]
        simp only [if_neg h2, hlock]
        obtain ⟨x, xs, hxs⟩ := List.exists_cons_of_ne_nil hne
        simp [hxs, surfaceNonempty]
    · simpa [if_neg hc, hs] using h

lemma runSurfOps_inv (ops : List SurfOp) (st : SurfSt)
    (h : st.objLocked = true ↔ surfaceNonempty st = true) :
    ((runSurfOps st ops).objLocked = true ↔
      surfaceNonempty (runSurfOps st ops) = true) := by
  induction ops generalizing st with
  | nil => simpa [runSurfOps] using h
  | cons op rest ih =>
    cases op with
    | put c conn =>
      exact ih _ (surface_put_inv c conn st h)
    | off c =>
      exact ih _ (surface_off_inv c st h)

/-! ### Claim theorems -/

/-- C1: whenever `::` occurs in the (possibly try-extended) input,
CmdPose.parse tokenizes the text before the first `::` on whitespace:
exactly two tokens yield verb = first token and target fragment =
second token, exactly one token yields verb = that token and target
fragment = "me"; with implicit try an implicit `::` is first appended;
in particular the two concrete examples of the spec hold. -/
theorem pose_verb_target_tokens :
    (∀ (s : List Char) (b : Bool) (vn pose t t1 t2 : List Char),
        splitCC (if b then s ++ [':', ':'] else s) = some (vn, pose) →
        (pySplitWs vn = [t1, t2] →
          (resolvePoseCore b s).verb = some t1 ∧
          (resolvePoseCore b s).searchQuery = some t2) ∧
        (pySplitWs vn = [t] →
          (resolvePoseCore b s).verb = some t ∧
          (resolvePoseCore b s).searchQuery = some ['m', 'e'])) ∧
    resolve_pose "get anvil::puts his back into it." false =
      (some "get", some "anvil", " puts his back into it.") ∧
    resolve_pose "unlock door" true = (some "unlock", some "door", "") := by
  refine ⟨?_, by decide, by decide⟩
  intro s b vn pose t t1 t2 hsplit
  constructor
  · intro h2
    unfold resolvePoseCore
    simp only [hsplit, h2]
    simp
  · intro h1
    unfold resolvePoseCore
    simp only [hsplit, h1]
    simp [pyStrip_single_token vn t h1]

/-- Witness for C1: the single-`::`, two-token case evaluated at a
concrete input. -/
theorem pose_verb_target_tokens_inst :
    (resolvePoseCore false "hug tree::leans in".data).verb = some "hug".data ∧
    (resolvePoseCore false "hug tree::leans in".data).searchQuery = some "tree".data :=
  (pose_verb_target_tokens.1 "hug tree::leans in".data false "hug tree".data
    "leans in".data [] "hug".data "tree".data (by decide)).1 (by decide)

/-- C2 counterexample: for the input "smiles " (trailing space) with no
`::`, the pose text is NOT the input verbatim with one leading space
prepended (" smiles ") — the code strips surrounding whitespace first,
producing " smiles". -/
theorem pose_plain_text_not_verbatim :
    (resolve_pose "smiles " false).2.2 = " smiles" ∧
    (resolve_pose "smiles " false).2.2 ≠ " smiles " := by decide

/-- C2 (amended): for every input with no `::` (and implicit try
unset), CmdPose.parse returns no verb, performs no search, and leaves
the text unchanged when it is empty or starts with a glyph of the
fixed set, and otherwise prepends exactly one space to the input
stripped of leading and trailing whitespace; in particular
resolve_pose "smiles" gives pose text " smiles". -/
theorem pose_plain_text_stripped :
    (∀ s : List Char, splitCC s = none →
      (resolvePoseCore false s).verb = none ∧
      (resolvePoseCore false s).searchQuery = none ∧
      (resolvePoseCore false s).args =
        (match s with
         | [] => []
         | c :: _ => if c ∈ nonSpaceChars then s else ' ' :: pyStrip s)) ∧
    resolve_pose "smiles" false = (none, none, " smiles") := by
  refine ⟨?_, by decide⟩
  intro s h
  unfold resolvePoseCore
  simp only [Bool.false_eq_true, if_false, h]
  exact ⟨trivial, trivial, rfl⟩

/-- Witness for C2: the amended statement evaluated at "waves ". -/
theorem pose_plain_text_stripped_inst :
    (resolvePoseCore false "waves ".data).verb = none ∧
    (resolvePoseCore false "waves ".data).searchQuery = none ∧
    (resolvePoseCore false "waves ".data).args =
      (match "waves ".data with
       | [] => []
       | c :: _ => if c ∈ nonSpaceChars then "waves ".data else ' ' :: pyStrip "waves ".data) :=
  pose_plain_text_stripped.1 "waves ".data (by decide)

/-- C3: CmdPose.parse is a total function, and whenever `::` occurs in
the (possibly try-extended) input but the text before it tokenizes to
zero or more than two tokens, no verb is parsed, no search happens and
the whole (try-extended) input is treated as plain pose text, subject
only to the glyph-spacing rule. -/
theorem pose_fallback_plain :
    ∀ (s : List Char) (b : Bool) (vn pose : List Char),
      splitCC (if b then s ++ [':', ':'] else s) = some (vn, pose) →
      ¬(0 < (pySplitWs vn).length ∧ (pySplitWs vn).length ≤ 2) →
      resolvePoseCore b s =
        ⟨none, none, spaceRuleL (if b then s ++ [':', ':'] else s)⟩ := by
  intro s b vn pose hsplit hlen
  unfold resolvePoseCore
  simp only [hsplit, if_neg hlen]

/-- Witness for C3: the three-token fallback evaluated at "a b c::pose". -/
theorem pose_fallback_plain_inst :
    resolvePoseCore false "a b c::pose".data =
      ⟨none, none,
        spaceRuleL (if false then "a b c::pose".data ++ [':', ':'] else "a b c::pose".data)⟩ :=
  pose_fallback_plain "a b c::pose".data false "a b c".data "pose".data (by decide) (by decide)

/-- C4 counterexample: contrary to the claim that the resolver never
invokes the external object-search collaborator, CmdPose.parse passes
the parsed noun to caller.search (command.py line 648) whenever a verb
is parsed: on the spec's own example input the search query is not
none. -/
theorem pose_search_invoked :
    (resolve_pose "get anvil::puts his back into it." false).2.1 ≠ none := by decide

/-- C4 (amended): CmdPose.parse is a pure function of its explicit
inputs but DOES perform object resolution: it invokes the object-search
collaborator (storing the result in self.obj) exactly when a verb is
parsed, passing the target fragment as the query. -/
theorem pose_search_iff_verb :
    ∀ (s : List Char) (b : Bool),
      (resolvePoseCore b s).searchQuery = none ↔ (resolvePoseCore b s).verb = none := by
  intro s b
  rcases hsplit : splitCC (if b then s ++ [':', ':'] else s) with _ | ⟨vn, pose⟩
  · unfold resolvePoseCore
    simp [hsplit]
  · unfold resolvePoseCore
    simp only [hsplit]
    split_ifs with h1 h2
    · obtain ⟨x, y, hxy⟩ := List.length_eq_two.1 h2
      simp [hxy]
    all_goals simp

/-- C5: CmdSpoof.func is meant to clamp the justification parameters so
that inset ≤ width (the larger sanitized value becoming the width), but
`max`/`min` at say.py line 185 compare the sanitized values as strings:
on the parameter pair "9 100" the code produces width 9 and inset 100,
violating inset ≤ width; the defaults (72, 20) do apply when no
parameters are given. -/
theorem spoof_lexicographic_maxmin :
    spoofJustifyParams (some "9 100") = (9, 100) ∧ ¬(100 ≤ 9) ∧
    spoofJustifyParams none = (72, 20) := by decide

/-- C6 counterexample: in the /right, /center and /news modes, a
two-parameter value whose parameters sanitize to nothing falls back to
0, not to the mode's defaults (72, 20) as claimed. -/
theorem spoof_sanitize_zero_fallback :
    spoofJustifyParams (some "x y") = (0, 0) ∧ (0, 0) ≠ ((72, 20) : Nat × Nat) := by decide

/-- C6 (amended): numeric parameters are sanitized by keeping only their
digits (the computed indent depends only on the digits of the text);
an empty result falls back to the default 20 in /indent mode but to 0
per parameter in the two-parameter /right,/center,/news form; with no
`=` present, or no usable parameter list, the defaults (72, 20) apply;
the computation is total, so rendering never raises on malformed
numeric parameters. -/
theorem spoof_sanitize_behavior :
    (∀ r : String, r.data.filter Char.isDigit = [] → spoofIndentParam (some r) = 20) ∧
    (∀ r : String,
        spoofIndentParam (some r) =
          spoofIndentParam (some (String.mk (r.data.filter Char.isDigit)))) ∧
    spoofJustifyParams none = (72, 20) ∧
    spoofJustifyParams (some "") = (72, 20) ∧
    (∀ r : String, 1 < (pySplitWs r.data).length →
        (∀ t ∈ pySplitWs r.data, t.filter Char.isDigit = []) →
        spoofJustifyParams (some r) = (0, 0)) := by
  refine ⟨?_, ?_, by decide, by decide, ?_⟩
  · intro r h
    by_cases hr : r = ""
    · simp [spoofIndentParam, hr]
    · simp [spoofIndentParam, hr, h]
  · intro r
    by_cases hr : r = ""
    · simp [spoofIndentParam, hr]
    · by_cases hd : r.data.filter Char.isDigit = []
      · have : String.mk (r.data.filter Char.isDigit) = "" := by
          rw [hd]
        simp [spoofIndentParam, hr, hd, this]
      · have hne : ¬ String.mk (r.data.filter Char.isDigit) = "" := by
          intro hcontra
          exact hd (by simpa using congrArg String.data hcontra)
        simp [spoofIndentParam, hr, hd, hne, List.filter_filter]
  · intro r h1 h2
    have hr : ¬ r = "" := by
      intro hcontra
      rw [hcontra] at h1
      simp [pySplitWs] at h1
    unfold spoofJustifyParams
    simp only [if_neg hr]
    rw [if_pos (by simpa using h1)]
    have hlen0 : 0 < (pySplitWs r.data).length := by omega
    have h0 : (pySplitWs r.data)[0]? = some (pySplitWs r.data)[0] :=
      List.getElem?_eq_getElem hlen0
    have h1' : (pySplitWs r.data)[1]? = some (pySplitWs r.data)[1] :=
      List.getElem?_eq_getElem h1
    rw [h0, h1']
    simp only [Option.getD_some]
    have e0 : ((pySplitWs r.data)[0]).filter Char.isDigit = [] :=
      h2 _ (List.getElem_mem _)
    have e1 : ((pySplitWs r.data)[1]).filter Char.isDigit = [] :=
      h2 _ (List.getElem_mem _)
    simp [sanitizeOrZero, e0, e1, pyMax, pyMin, pyLt, pyToInt]

/-- Witness for C6: the amended statement evaluated at concrete
malformed parameters. -/
theorem spoof_sanitize_behavior_inst :
    spoofIndentParam (some "px") = 20 ∧ spoofJustifyParams (some "a b") = (0, 0) :=
  ⟨spoof_sanitize_behavior.1 "px" (by decide),
   spoof_sanitize_behavior.2.2.2.2 "a b" (by decide) (by decide)⟩

/-- C7: in the say PLAIN and OOC room templates every brace in a
user-supplied binding is doubled by escape_braces before substitution
while the template text itself is not escaped, so the rendered output
contains exactly one live placeholder-opening brace — the template's
own placeholder — regardless of the bindings; likewise the spoof
pipe-escaping pass leaves no live pipe markup in the escaped text. -/
theorem render_escape_no_live_markup :
    ∀ (verb prepend speech extra : List Char),
      liveCount '{' (renderSayPlain verb prepend speech) = 1 ∧
      liveCount '{' (renderSayOoc speech) = 1 ∧
      liveCount '|' (escPipe extra) = 0 := by
  intro verb prepend speech extra
  refine ⟨?_, ?_, ?_⟩
  · unfold renderSayPlain escape_braces
    simp only [List.append_assoc]
    rw [liveOpen_sayTplHead,
      liveCount_escDouble_append (by decide),
      liveCount_append_not_mem (", |n\"".data) _ (by decide),
      liveCount_escDouble_append (by decide),
      liveCount_escDouble_append (by decide)]
    decide
  · unfold renderSayOoc escape_braces
    simp only [List.append_assoc]
    rw [liveOpen_oocTplHead, liveCount_escDouble_append (by decide)]
    decide
  · unfold escPipe
    have h := liveCount_escDouble_append (p := fun c => c == '|') (g := '|')
      (by decide) extra []
    simpa using h

/-- C8: with this repository's configuration (INLINEFUNC_ENABLED =
False, settings.py line 39) outgoing-text rendering is deterministic:
it does not depend on the state of the random number generator that the
`usage` inline function would otherwise consume, so rendering the same
text twice yields identical output. -/
theorem render_inline_deterministic :
    ∀ (text : List Char) (r1 r2 : ℚ),
      renderOutgoing r1 text = renderOutgoing r2 text := by
  intro text r1 r2
  simp [renderOutgoing, INLINEFUNC_ENABLED]

/-- C9: starting from an empty or absent surface map with the locked
attribute unset, after any sequence of surface_put / surface_off calls
the object's locked attribute is set iff its surface map is non-empty;
moreover surface_put returns False and changes nothing when the caller
is already on the surface, otherwise records the caller and sets locked
on object and caller; and surface_off removes the caller and clears the
object's locked attribute exactly when the map becomes empty. -/
theorem surface_locked_iff_nonempty :
    (∀ (ops : List SurfOp) (st0 : SurfSt),
        st0.surface = none ∨ st0.surface = some [] → st0.objLocked = false →
        ((runSurfOps st0 ops).objLocked = true ↔
          surfaceNonempty (runSurfOps st0 ops) = true)) ∧
    (∀ (st : SurfSt) (s : Surface) (c : Nat) (conn : String),
        st.surface = some s → surfHas s c = true →
        surface_put c conn st = (st, false)) ∧
    (∀ (st : SurfSt) (c : Nat) (conn : String),
        surfHas (st.surface.getD []) c = false →
        (surface_put c conn st).2 = true ∧
        (surface_put c conn st).1.objLocked = true ∧
        c ∈ (surface_put c conn st).1.callersLocked ∧
        surfHas ((surface_put c conn st).1.surface.getD []) c = true) ∧
    (∀ (st : SurfSt) (s : Surface) (c : Nat),
        st.surface = some s → surfHas s c = true → st.objLocked = true →
        ∃ st2, surface_off c st = .ok (st2, true) ∧
          surfHas (st2.surface.getD []) c = false ∧
          (st2.objLocked = false ↔ st2.surface = some [])) := by
  refine ⟨?_, ?_, ?_, ?_⟩
  · intro ops st0 hinit hlock
    apply runSurfOps_inv
    rw [hlock]
    rcases hinit with h | h <;> simp [surfaceNonempty, h]
  · intro st s c conn hs hc
    unfold surface_put
    rw [hs]
    simp only [Option.getD_some, if_pos hc]
    rw [← hs]
  · intro st c conn hc
    unfold surface_put
    simp only [hc, Bool.false_eq_true, if_false]
    refine ⟨trivial, trivial, ?_, by simp [surfHas]⟩
    by_cases hmem : c ∈ st.callersLocked <;> simp [hmem]
  · intro st s c hs hc hlock
    unfold surface_off
    rw [hs]
    simp only [if_pos hc]
    refine ⟨_, rfl, ?_, ?_⟩
    · simp only [Option.getD_some, surfHas]
      rw [List.any_eq_false]
      intro p hp
      have := (List.mem_filter.1 hp).2
      simp only [bne_iff_ne, ne_eq] at this
      simp [this]
    · simp only
      by_cases h2 : (s.filter (fun p => p.1 != c)).length < 1
      · have hnil : s.filter (fun p => p.1 != c) = [] :=
          List.length_eq_zero.1 (by omega)
        simp [h2, hnil]
      · have hne : s.filter (fun p => p.1 != c) ≠ [] := by
          intro hx
          rw [hx] at h2
          simp at h2
        simp [h2, hlock, hne]

/-- Witness for C9: the invariant evaluated over a concrete call
sequence (two sits, one stand) from the empty initial state. -/
theorem surface_locked_iff_nonempty_inst :
    ((runSurfOps ⟨none, false, []⟩
        [.put 1 "against", .put 2 "on", .off 1]).objLocked = true ↔
      surfaceNonempty (runSurfOps ⟨none, false, []⟩
        [.put 1 "against", .put 2 "on", .off 1]) = true) :=
  surface_locked_iff_nonempty.1 [.put 1 "against", .put 2 "on", .off 1]
    ⟨none, false, []⟩ (Or.inl rfl) rfl

/-- C10: Consumable.consume on an object with an integer health
attribute decrements it by one, clamps the stored value at zero (the
stored value is never negative afterwards) and returns the new stored
value; without a health attribute it returns None and changes
nothing. -/
theorem consume_clamps_health :
    ∀ h : Int,
      consume (some h) = (some (max (h - 1) 0), some (max (h - 1) 0)) ∧
      0 ≤ max (h - 1) 0 ∧
      consume none = (none, none) := by
  intro h
  refine ⟨?_, le_max_right _ _, rfl⟩
  unfold consume
  by_cases hlt : h - 1 < 1
  · simp only [if_pos hlt]
    have : max (h - 1) 0 = 0 := by omega
    rw [this]
  · simp only [if_neg hlt]
    have : max (h - 1) 0 = h - 1 := by omega
    rw [this]
